import Mathlib

/-!
Verification development for the sphere-signal transform module
`e3nn_jax/_src/s2grid.py` of the repository `ameya98/e3nn-jax`.

The Python arrays of floats are modelled as lists or functions into `ℝ`;
Python exceptions are modelled with `Except String`.  Every definition is
translated from the source file; the few collaborators that are not part of
the supplied sources (the Fourier basis `_sh_alpha` from
`e3nn_jax/_src/spherical_harmonics.py` and the external library routines
`jnp.fft.rfft`, `jnp.fft.irfft`, `numpy.polynomial.legendre.leggauss`) are
modelled from the specification and marked as such in their doc comments.
-/

open Real

/-- Success test for an embedded Python computation: `true` iff no exception
was raised. -/
def isOkE {α : Type} : Except String α → Bool
  | .ok _ => true
  | .error _ => false

/-! ### Irreps and the parity resolver (`_check_parities`, s2grid.py lines 406-440) -/

/-- One entry `(mul, ir)` of an `e3nn.Irreps` list: multiplicity, degree `l`
and parity `p` (the external Irreps descriptor of spec section 6). -/
structure Irrep where
  mul : ℕ
  l : ℕ
  p : ℤ
deriving DecidableEq

/-- Parities observed among the even-degree members of an irreps list
(Python: the set comprehension over `ir.l % 2 == 0` in `_check_parities`). -/
def evenPs (irs : List Irrep) : List ℤ :=
  (irs.filter (fun ir => ir.l % 2 == 0)).map Irrep.p

/-- Parities observed among the odd-degree members of an irreps list. -/
def oddPs (irs : List Irrep) : List ℤ :=
  (irs.filter (fun ir => ir.l % 2 == 1)).map Irrep.p

/-- Error message raised when an observed parity set does not collapse to a
single value (Python interpolates nothing into this message). -/
def parityFormMsg : String :=
  "irrep parities should be of the form (p_val * p_arg**l) for all l, where p_val and p_arg are +-1"

/-- Collapse of one observed parity set, mirroring the test
`p_even in [ {1}, {-1}, set() ]` followed by `p_even.pop() if p_even else None`
in `_check_parities`.  A list standing for the set `{1}` is a non-empty list
whose members are all `1`, and similarly for `{-1}`. -/
def obsParity (ps : List ℤ) : Except String (Option ℤ) :=
  if ps.isEmpty then .ok none
  else if ps.all (fun x => x == 1) then .ok (some 1)
  else if ps.all (fun x => x == -1) then .ok (some (-1))
  else .error parityFormMsg

/-- Final lines of `_check_parities`: if both the even and the odd parity are
known, return `(p_even, p_even * p_odd)`, otherwise `(p_even, None)`. -/
def finalizeParities (pe po : Option ℤ) : Except String (Option ℤ × Option ℤ) :=
  match pe, po with
  | some e, some o => .ok (some e, some (e * o))
  | _, _ => .ok (pe, none)

/-- Middle part of `_check_parities` (after the observed parities `pe`, `po`
have been collapsed), translated branch by branch from the Python source.
The Python error messages interpolate the irreps; the static prefixes are kept
here. -/
def checkParitiesCore (pe po : Option ℤ) (pv pa : Option ℤ) :
    Except String (Option ℤ × Option ℤ) :=
  match pv, pa with
  | some v, some a =>
      if (pe = some v ∨ pe = none) ∧ (po = some (v * a) ∨ po = none) then
        .ok (some v, some a)
      else
        .error "irrep parities are not compatible with the given p_val and p_arg."
  | some v, none =>
      -- Python: `if p_even is None: p_even = p_val` then `if p_even != p_val: raise`
      match pe with
      | none => finalizeParities (some v) po
      | some e =>
          if e = v then finalizeParities (some v) po
          else .error "irrep parities are not compatible with the given p_val."
  | none, some a =>
      match pe, po with
      | some e, none => finalizeParities (some e) (some (e * a))
      | none, some o => finalizeParities (some (o * a)) (some o)
      | some e, some o =>
          if o = e * a then finalizeParities (some e) (some o)
          else .error "irrep parities are not compatible with the given p_arg."
      | none, none => finalizeParities none none
  | none, none => finalizeParities pe po

/-- Embedding of `_check_parities(irreps, p_val, p_arg)` (s2grid.py lines
406-440).  Returns the resolved `(p_val, p_arg)` pair, either component of
which may be undetermined (`none`). -/
def checkParities (irs : List Irrep) (pv pa : Option ℤ) :
    Except String (Option ℤ × Option ℤ) :=
  match obsParity (evenPs irs), obsParity (oddPs irs) with
  | .error e, _ => .error e
  | .ok _, .error e => .error e
  | .ok pe, .ok po => checkParitiesCore pe po pv pa

/-- Multiplicity test `all(mul == 1 for mul, _ in irreps)`. -/
def mulsOne (irs : List Irrep) : Bool := irs.all (fun ir => ir.mul == 1)

/-- Validation prefix of `to_s2grid` (s2grid.py lines 568-580), operating on
the (already regrouped) irreps of the coefficient array: the `lmax`
extraction `coeffs.irreps.ls[-1]` (an IndexError on an empty list), the
multiplicity check, the check that `p_val` and `p_arg` are supplied together,
the call to `_check_parities`, and the rejection of an undetermined parity
pair.  On success it returns the resolved `(p_val, p_arg)`. -/
def toS2gridValidate (irs : List Irrep) (pv pa : Option ℤ) : Except String (ℤ × ℤ) :=
  if irs.isEmpty then .error "IndexError: list index out of range"
  else if ¬ mulsOne irs then .error "Multiplicities should be ones."
  else if pv.isSome != pa.isSome then
    .error "p_val and p_arg should be both None or both not None."
  else
    match checkParities irs pv pa with
    | .error e => .error e
    | .ok (some v, some a) => .ok (v, a)
    | .ok _ => .error "p_val and p_arg cannot be determined from the irreps, please specify them."

/-! ### The signal container and its arithmetic (`SphericalSignal`, lines 48-106) -/

/-- The `SphericalSignal` container: a two-dimensional grid of values whose
axes are (colatitude index, longitude index), a quadrature tag and the parity
pair.  Leading batch axes play no role in the arithmetic checks and are not
modelled. -/
structure SigE where
  values : List (List ℝ)
  quadrature : String
  p_val : ℤ
  p_arg : ℤ

/-- Python `res_beta`, the size of `shape[-2]`. -/
def SigE.resBeta (s : SigE) : ℕ := s.values.length

/-- Python `res_alpha`, the size of `shape[-1]`. -/
def SigE.resAlpha (s : SigE) : ℕ := (s.values.headD []).length

/-- Python `grid_resolution` property. -/
def SigE.gridResolution (s : SigE) : ℕ × ℕ := (s.resBeta, s.resAlpha)

/-- Embedding of `SphericalSignal.__add__` with its three guard clauses, in
source order: grid resolution, parity pair, quadrature. -/
def sigAdd (s o : SigE) : Except String SigE :=
  if s.gridResolution ≠ o.gridResolution then
    .error "Grid resolutions for both signals must be identical. Use .resample() to change one of the grid resolutions."
  else if (s.p_val, s.p_arg) ≠ (o.p_val, o.p_arg) then
    .error "Parity for both signals must be identical."
  else if s.quadrature ≠ o.quadrature then
    .error "Quadrature for both signals must be identical."
  else
    .ok ⟨List.zipWith (fun a b => List.zipWith (· + ·) a b) s.values o.values,
         s.quadrature, s.p_val, s.p_arg⟩

/-- Embedding of `SphericalSignal.__sub__`, identical guards, subtraction of
values. -/
def sigSub (s o : SigE) : Except String SigE :=
  if s.gridResolution ≠ o.gridResolution then
    .error "Grid resolutions for both signals must be identical. Use .resample() to change one of the grid resolutions."
  else if (s.p_val, s.p_arg) ≠ (o.p_val, o.p_arg) then
    .error "Parity for both signals must be identical."
  else if s.quadrature ≠ o.quadrature then
    .error "Quadrature for both signals must be identical."
  else
    .ok ⟨List.zipWith (fun a b => List.zipWith (· - ·) a b) s.values o.values,
         s.quadrature, s.p_val, s.p_arg⟩

/-! ### Grid geometry (`_quadrature_weights_soft` and `_s2grid`, lines 328-373) -/

/-- Embedding of `_quadrature_weights_soft(b)[j]` (s2grid.py lines 328-343):
the raw Kostelec-Rockmore weight
`(4/b) * sin(pi*(2j+1)/(2b)) * sum_k sin((2j+1)(2k+1)pi/(2b)) / (2k+1)`
with `k` running over `range(b // 2)`. -/
noncomputable def quadratureWeightsSoft (b j : ℕ) : ℝ :=
  (4 / b) * Real.sin (π * (2 * j + 1) / (2 * b)) *
    ∑ k in Finset.range (b / 2),
      (1 / (2 * (k : ℝ) + 1)) * Real.sin ((2 * j + 1) * (2 * k + 1) * π / (2 * b))

/-- The colatitude cosines of the soft grid (`_s2grid`, quadrature `"soft"`):
`y[j] = -cos((j + 0.5) / res_beta * pi)`. -/
noncomputable def s2gridYSoft (b j : ℕ) : ℝ :=
  -Real.cos (((j : ℝ) + 1 / 2) / b * π)

/-- The quadrature weights returned by `_s2grid` for the soft quadrature:
the raw weights divided by two (`qw /= 2.0`). -/
noncomputable def s2gridQwSoft (b j : ℕ) : ℝ := quadratureWeightsSoft b j / 2

/-- Modelled from the spec: `numpy.polynomial.legendre.leggauss(res_beta)`,
the external library routine used by `_s2grid` for the Gauss-Legendre
quadrature, is not part of the repository.  The specification describes it as
the standard nodes and weights of the degree-`res_beta` Legendre polynomial;
the standard properties this development needs are that the nodes lie in
`[-1, 1]` and that the rule integrates the constant function `1` exactly over
`[-1, 1]`, so the raw weights sum to `2`. -/
def IsGaussLegendreRule (n : ℕ) (y w : ℕ → ℝ) : Prop :=
  (∀ i < n, -1 ≤ y i ∧ y i ≤ 1) ∧ (∑ i in Finset.range n, w i) = 2

/-- The quadrature weights returned by `_s2grid` for the Gauss-Legendre
quadrature: the raw `leggauss` weights divided by two (`qw /= 2.0`). -/
noncomputable def s2gridQwGL (w : ℕ → ℝ) (j : ℕ) : ℝ := w j / 2

/-! ### The Fourier engine (`_rfft` and `_irfft`, lines 782-823) -/

/-- Real part of bin `k` of the length-`M` discrete Fourier transform of a
real sequence: the semantics of `jnp.fft.rfft(x)[k].real` for an input of
length `M` (external library routine, embedded by its defining sum). -/
noncomputable def dftRe (M : ℕ) (g : ℕ → ℝ) (k : ℕ) : ℝ :=
  ∑ a in Finset.range M, g a * Real.cos (2 * π * k * a / M)

/-- Imaginary part of bin `k` of the length-`M` discrete Fourier transform of
a real sequence: the semantics of `jnp.fft.rfft(x)[k].imag`. -/
noncomputable def dftIm (M : ℕ) (g : ℕ → ℝ) (k : ℕ) : ℝ :=
  -∑ a in Finset.range M, g a * Real.sin (2 * π * k * a / M)

/-- Embedding of `_rfft(x, l)` (s2grid.py lines 782-800) on one row of
samples: the concatenation
`[ flip(imag(bins[1 : l+1])) * (-sqrt 2), real(bins[0 : 1]), real(bins[1 : l+1]) * sqrt 2 ]`
of the first `l + 1` bins of the length-`M` real-input FFT. -/
noncomputable def rfftL (g : List ℝ) (l : ℕ) : List ℝ :=
  (((List.range l).map (fun k => dftIm g.length (fun a => g.getD a 0) (k + 1))).reverse.map
      (fun t => -Real.sqrt 2 * t))
    ++ [dftRe g.length (fun a => g.getD a 0) 0]
    ++ (List.range l).map (fun k => Real.sqrt 2 * dftRe g.length (fun a => g.getD a 0) (k + 1))

/-- Semantics of `jnp.fft.irfft(bins, res)` for an odd output length `res`
(external library routine): the inverse real FFT
`out[n] = (1/res) * (re(bins[0]) + 2 * sum_k (re(bins[k]) cos(2 pi k n / res) - im(bins[k]) sin(2 pi k n / res)))`
with `k` running over `1 .. res / 2`; bins beyond the supplied input count as
zero (zero padding) and bins beyond `res / 2` are ignored (truncation). -/
noncomputable def irfftSem (br bi : ℕ → ℝ) (res n : ℕ) : ℝ :=
  (1 / res) *
    (br 0 + 2 * ∑ k in Finset.Ioc 0 (res / 2),
      (br k * Real.cos (2 * π * k * n / res) - bi k * Real.sin (2 * π * k * n / res)))

/-- Real parts of the complex bins assembled by `_irfft(x, res)`
(s2grid.py lines 813-821): bin `0` is `x[l]`, bin `k` for `1 <= k <= l` is
`(x[l+k] - i * x[l-k]) / sqrt 2`, the remaining bins are zero, with
`l = (len(x) - 1) // 2`. -/
noncomputable def irfftBinRe (x : List ℝ) (k : ℕ) : ℝ :=
  if k = 0 then x.getD ((x.length - 1) / 2) 0
  else if k ≤ (x.length - 1) / 2 then x.getD ((x.length - 1) / 2 + k) 0 / Real.sqrt 2
  else 0

/-- Imaginary parts of the complex bins assembled by `_irfft(x, res)`. -/
noncomputable def irfftBinIm (x : List ℝ) (k : ℕ) : ℝ :=
  if 1 ≤ k ∧ k ≤ (x.length - 1) / 2 then
    -(x.getD ((x.length - 1) / 2 - k) 0) / Real.sqrt 2
  else 0

/-- Embedding of `_irfft(x, res)` (lines 803-823) on one row of Fourier
coefficients: assemble the bins and apply the inverse real FFT. -/
noncomputable def irfftCode (x : List ℝ) (res n : ℕ) : ℝ :=
  irfftSem (irfftBinRe x) (irfftBinIm x) res n

/-- Modelled from the spec: the trigonometric Fourier basis `_sh_alpha`
(module `e3nn_jax/_src/spherical_harmonics.py`, which is not among the
supplied sources).  Following spec sections 4.3 and 6, row `alpha` of the
basis holds the `2l + 1` values ordered `sine(l) .. sine(1), constant,
cosine(1) .. cosine(l)`, scaled so that it represents the same coefficient
convention as the fast path of section 4.3, namely
`sqrt 2 * sin(k alpha), 1, sqrt 2 * cos(k alpha)`. -/
noncomputable def shAlpha (l j : ℕ) (α : ℝ) : ℝ :=
  if j < l then Real.sqrt 2 * Real.sin (((l - j : ℕ) : ℝ) * α)
  else if j = l then 1
  else Real.sqrt 2 * Real.cos (((j - l : ℕ) : ℝ) * α)

/-- Longitude samples of the grid (`_s2grid`): `alpha[a] = a / res_alpha * 2 pi`. -/
noncomputable def gridAlpha (M a : ℕ) : ℝ := (a : ℝ) / M * (2 * π)

/-- The naive longitude integration of `from_s2grid` (the `fft=False` branch,
`einsum("...ba,am->...bm", grid_values, sha) / res_alpha`) applied to one row
of grid values, at Fourier index `j`. -/
noncomputable def fromS2gridNaiveIntA (g : List ℝ) (l M j : ℕ) : ℝ :=
  (∑ a in Finset.range M, g.getD a 0 * shAlpha l j (gridAlpha M a)) / M

/-- The fft branch dispatch of the longitude integration in `from_s2grid`
(s2grid.py lines 503-514).  The committed source contains unresolved git
merge conflict markers in this region, so the module does not even parse;
under either candidate resolution of the conflict the operative assignment of
the `fft=True` branch is `int_a = rfft(x.grid_values, lmax) / res_alpha`,
where `rfft` is an undefined name (the module only defines `_rfft`), hence
the branch raises `NameError` at run time.  The `fft=False` branch is the
naive contraction against the Fourier basis. -/
noncomputable def fromS2gridIntA (fft : Bool) (g : List ℝ) (l M : ℕ) :
    Except String (List ℝ) :=
  if fft then .error "NameError: name rfft is not defined"
  else .ok ((List.range (2 * l + 1)).map (fun j => fromS2gridNaiveIntA g l M j))

/-! ### The basis reshaper (`_rollout_sh`, lines 849-864) -/

/-- One pass of the inner loop body of `_rollout_sh`: write the compact entry
`m[l(l+1)/2 + i]` into the full-layout slots `l^2 + l + i` and then
`l^2 + l - i` (the two `.at[...].set(...)` updates). -/
noncomputable def rolloutStep (m : ℕ → ℝ) (l : ℕ) (acc : ℕ → ℝ) (i : ℕ) : ℕ → ℝ :=
  Function.update
    (Function.update acc (l * l + l + i) (m (l * (l + 1) / 2 + i)))
    (l * l + l - i) (m (l * (l + 1) / 2 + i))

/-- The inner loop of `_rollout_sh` for one degree `l`: `i` runs over
`range(l + 1)`. -/
noncomputable def rolloutBlock (m : ℕ → ℝ) (l : ℕ) (acc : ℕ → ℝ) : ℕ → ℝ :=
  (List.range (l + 1)).foldl (rolloutStep m l) acc

/-- Embedding of `_rollout_sh(m, lmax)` (lines 849-864): starting from the
zero array of size `(lmax + 1)^2`, run the double loop over `l` and `i`.
The array is modelled as a function on indices. -/
noncomputable def rolloutSh (m : ℕ → ℝ) (lmax : ℕ) : ℕ → ℝ :=
  (List.range (lmax + 1)).foldl (fun acc l => rolloutBlock m l acc) (fun _ => 0)

/-! ### Point evaluation (`to_s2point`, lines 649-692) -/

/-- Dot product of two coefficient rows. -/
def dotR (u v : List ℝ) : ℝ := (List.zipWith (· * ·) u v).sum

/-- Row-major flattening of `jnp.einsum("ai,bi->ab", sh, coeffs)` as it
appears in `to_s2point` (line 691): the first operand is the batch of
normalization-scaled basis rows evaluated at the query points, the second the
batch of coefficient rows. -/
def einsumAB (sh coeffs : List (List ℝ)) : List ℝ :=
  (sh.map (fun srow => coeffs.map (fun crow => dotR srow crow))).flatten

/-- The scalar entry of the result of `to_s2point` at coefficient-batch index
`i` and point-batch index `j`: the einsum output of shape
`(num_points, num_coeffs)` is reshaped row-major to `shape1 + shape2 + (1,)`,
so the entry at `(i, j, 0)` is the flattened einsum element at position
`i * num_points + j`. -/
def toS2pointEntry (sh coeffs : List (List ℝ)) (i j : ℕ) : ℝ :=
  (einsumAB sh coeffs).getD (i * sh.length + j) 0

/-! ### Helper lemmas -/

theorem isOkE_iff {α : Type} (e : Except String α) : isOkE e = true ↔ ∃ x, e = .ok x := by
  cases e <;> simp [isOkE]

theorem obsParity_error_of_mixed {ps : List ℤ} (h1 : 1 ∈ ps) (h2 : -1 ∈ ps) :
    obsParity ps = .error parityFormMsg := by
  unfold obsParity
  rw [if_neg, if_neg, if_neg]
  · intro hall
    rw [List.all_eq_true] at hall
    have := hall 1 h1
    simp at this
  · intro hall
    rw [List.all_eq_true] at hall
    have := hall (-1) h2
    simp at this
  · simp [List.isEmpty_iff]
    intro hnil
    rw [hnil] at h1
    exact absurd h1 (List.not_mem_nil 1)

theorem obsParity_ok_neg {ps : List ℤ} {pe : Option ℤ} (h2 : -1 ∈ ps)
    (hok : obsParity ps = .ok pe) : pe = some (-1) := by
  unfold obsParity at hok
  rw [if_neg, if_neg] at hok
  · by_cases hall : ps.all (fun x => x == -1) = true
    · rw [if_pos hall] at hok
      exact (Except.ok.injEq _ _ ▸ hok.symm : _)
    · rw [if_neg hall] at hok
      exact absurd hok (by simp)
  · intro hall
    rw [List.all_eq_true] at hall
    have := hall (-1) h2
    simp at this
  · simp [List.isEmpty_iff]
    intro hnil
    rw [hnil] at h2
    exact absurd h2 (List.not_mem_nil (-1))

theorem isEmpty_false_of_ne_nil {α : Type} {xs : List α} (h : xs ≠ []) :
    xs.isEmpty = false := by
  cases xs with
  | nil => exact absurd rfl h
  | cons a t => rfl

/-! ### Claim theorems -/

/-- C3: the parity resolver `_check_parities` raises a hard consistency error
whenever the even-degree members of the irreps list carry both parities `+1`
and `-1`, or the odd-degree members do; and it also raises when `p_val = +1`
is supplied while the observed even-degree parity is `-1` (with or without an
accompanying `p_arg`). -/
theorem checkParities_rejects_mixed (irs : List Irrep) (pv pa : Option ℤ)
    (h : (1 ∈ evenPs irs ∧ -1 ∈ evenPs irs) ∨ (1 ∈ oddPs irs ∧ -1 ∈ oddPs irs) ∨
         (pv = some 1 ∧ -1 ∈ evenPs irs ∧ ¬ (1 ∈ evenPs irs))) :
    isOkE (checkParities irs pv pa) = false := by
  unfold checkParities
  rcases h with ⟨h1, h2⟩ | ⟨h1, h2⟩ | ⟨hpv, h2, _⟩
  · rw [obsParity_error_of_mixed h1 h2]
    cases ho : obsParity (oddPs irs) <;> simp [isOkE]
  · rw [obsParity_error_of_mixed h1 h2]
    cases he : obsParity (evenPs irs) <;> simp [isOkE]
  · cases he : obsParity (evenPs irs) with
    | error e => cases ho : obsParity (oddPs irs) <;> simp [isOkE]
    | ok pe =>
      have hpe : pe = some (-1) := obsParity_ok_neg h2 he
      subst hpe
      subst hpv
      cases ho : obsParity (oddPs irs) with
      | error e => simp [isOkE]
      | ok po =>
        cases pa with
        | none => simp [checkParitiesCore, isOkE]
        | some a => simp [checkParitiesCore, isOkE]

/-- Witness for C3 at a concrete input: an irreps list holding degree-2
irreps of both parities is rejected. -/
theorem checkParities_rejects_mixed_witness :
    isOkE (checkParities [⟨1, 2, 1⟩, ⟨1, 2, -1⟩] none none) = false :=
  checkParities_rejects_mixed [⟨1, 2, 1⟩, ⟨1, 2, -1⟩] none none
    (Or.inl (by constructor <;> decide))

/-- C4: when the irreps of the coefficients leave the parity pair
underdetermined (no even-degree member or no odd-degree member), calling
`to_s2grid` without an explicit `(p_val, p_arg)` override fails with the
error asking the caller to supply the parity explicitly. -/
theorem toS2grid_undetermined_parity_error (irs : List Irrep)
    (hne : irs ≠ []) (hm : mulsOne irs = true)
    (hoe : isOkE (obsParity (evenPs irs)) = true)
    (hoo : isOkE (obsParity (oddPs irs)) = true)
    (hund : evenPs irs = [] ∨ oddPs irs = []) :
    toS2gridValidate irs none none =
      .error "p_val and p_arg cannot be determined from the irreps, please specify them." := by
  obtain ⟨pe, hpe⟩ := (isOkE_iff _).mp hoe
  obtain ⟨po, hpo⟩ := (isOkE_iff _).mp hoo
  unfold toS2gridValidate
  rw [isEmpty_false_of_ne_nil hne]
  rw [if_neg (by simp)]
  rw [if_neg (by simp [hm])]
  rw [if_neg (by simp)]
  unfold checkParities
  rw [hpe, hpo]
  rcases hund with hev | hod
  · have : pe = none := by
      rw [hev] at hpe
      simpa [obsParity] using hpe.symm
    subst this
    cases po <;> simp [checkParitiesCore, finalizeParities]
  · have : po = none := by
      rw [hod] at hpo
      simpa [obsParity] using hpo.symm
    subst this
    cases pe <;> simp [checkParitiesCore, finalizeParities]

/-- Witness for C4 at a concrete input: irreps `0e + 2e` (only even degrees,
so `p_arg` is undetermined) with no override. -/
theorem toS2grid_undetermined_parity_error_witness :
    toS2gridValidate [⟨1, 0, 1⟩, ⟨1, 2, 1⟩] none none =
      .error "p_val and p_arg cannot be determined from the irreps, please specify them." :=
  toS2grid_undetermined_parity_error [⟨1, 0, 1⟩, ⟨1, 2, 1⟩]
    (by decide) (by decide) (by decide) (by decide) (Or.inr (by decide))

/-- C10: calling `to_s2grid` with exactly one of `p_val` and `p_arg` supplied
raises the dedicated error before any parity resolution is attempted: the
result is that specific error for every irreps list that reaches the check,
even when the supplied value is consistent with the irreps. -/
theorem toS2grid_xor_parity_error (irs : List Irrep) (hne : irs ≠ [])
    (hm : mulsOne irs = true) (pv pa : Option ℤ) (hx : pv.isSome ≠ pa.isSome) :
    toS2gridValidate irs pv pa =
      .error "p_val and p_arg should be both None or both not None." := by
  unfold toS2gridValidate
  rw [isEmpty_false_of_ne_nil hne]
  rw [if_neg (by simp)]
  rw [if_neg (by simp [hm])]
  rw [if_pos (bne_iff_ne.mpr hx)]

/-- Witness for C10 at a concrete input: irreps `0e` with `p_val = +1`
supplied (a value consistent with the irreps) and `p_arg` left out. -/
theorem toS2grid_xor_parity_error_witness :
    toS2gridValidate [⟨1, 0, 1⟩] (some 1) none =
      .error "p_val and p_arg should be both None or both not None." :=
  toS2grid_xor_parity_error [⟨1, 0, 1⟩] (by decide) (by decide) (some 1) none (by decide)

/-- C8: addition and subtraction of two `SphericalSignal`s succeed exactly
when the two signals have identical grid resolution, identical parity pair
and identical quadrature kind; a mismatch in any one of the three raises an
error in every case. -/
theorem sphericalSignal_arith_checks (s o : SigE) :
    (isOkE (sigAdd s o) = true ↔
      (s.gridResolution = o.gridResolution ∧ (s.p_val, s.p_arg) = (o.p_val, o.p_arg) ∧
        s.quadrature = o.quadrature)) ∧
    (isOkE (sigSub s o) = true ↔
      (s.gridResolution = o.gridResolution ∧ (s.p_val, s.p_arg) = (o.p_val, o.p_arg) ∧
        s.quadrature = o.quadrature)) := by
  constructor <;>
  · by_cases h1 : s.gridResolution = o.gridResolution <;>
      by_cases h2 : (s.p_val, s.p_arg) = (o.p_val, o.p_arg) <;>
        by_cases h3 : s.quadrature = o.quadrature <;>
          simp [sigAdd, sigSub, h1, h2, h3, isOkE]

/-- C7 (code evaluation at the failing input): for a coefficient batch of two
sets (values `[1]` and `[0]` over a one-dimensional irrep) and two query
points whose scaled basis rows are `[10]` and `[20]`, the entry of the
`to_s2point` output at coefficient-batch index 0 and point-batch index 1 is
the contraction of coefficient set 1 with the basis at point 0 (value 0), not
the contraction of coefficient set 0 with the basis at point 1 (value 20) as
the claim states: `einsum("ai,bi->ab", sh, coeffs)` is point-major but the
reshape to `shape1 + shape2 + (1,)` reads it coefficient-major. -/
theorem toS2point_entry_transposed :
    toS2pointEntry [[10], [20]] [[1], [0]] 0 1 = dotR [10] [0] ∧
    toS2pointEntry [[10], [20]] [[1], [0]] 0 1 ≠ dotR [20] [1] := by
  constructor
  · simp [toS2pointEntry, einsumAB, dotR]
  · simp [toS2pointEntry, einsumAB, dotR]

/-- C1 (code evaluation): the `fft=True` branch of the longitude integration
in `from_s2grid` (the default) raises rather than integrating, because both
sides of the unresolved merge conflict call the undefined name `rfft`; thus
`from_s2grid(to_s2grid(coeffs, ...), irreps, ...)` cannot return the original
coefficients on any input. -/
theorem fromS2grid_fft_branch_error (g : List ℝ) (l M : ℕ) :
    fromS2gridIntA true g l M = .error "NameError: name rfft is not defined" := rfl

theorem rolloutStep_ne (m : ℕ → ℝ) (l : ℕ) (acc : ℕ → ℝ) (i q : ℕ)
    (h1 : q ≠ l * l + l + i) (h2 : q ≠ l * l + l - i) :
    rolloutStep m l acc i q = acc q := by
  unfold rolloutStep
  rw [Function.update_noteq h2, Function.update_noteq h1]

theorem rolloutStep_hit (m : ℕ → ℝ) (l : ℕ) (acc : ℕ → ℝ) (i : ℕ) :
    rolloutStep m l acc i (l * l + l + i) = m (l * (l + 1) / 2 + i) ∧
    rolloutStep m l acc i (l * l + l - i) = m (l * (l + 1) / 2 + i) := by
  unfold rolloutStep
  constructor
  · rw [Function.update_apply]
    by_cases h : l * l + l + i = l * l + l - i
    · rw [if_pos h]
    · rw [if_neg h, Function.update_same]
  · rw [Function.update_same]

theorem rolloutBlockAux_untouched (m : ℕ → ℝ) (l : ℕ) (acc : ℕ → ℝ) (q : ℕ) :
    ∀ j, (∀ i < j, q ≠ l * l + l + i ∧ q ≠ l * l + l - i) →
      (List.range j).foldl (rolloutStep m l) acc q = acc q := by
  intro j
  induction j with
  | zero => intro _; rfl
  | succ n ih =>
    intro h
    rw [List.range_succ, List.foldl_append]
    simp only [List.foldl_cons, List.foldl_nil]
    rw [rolloutStep_ne _ _ _ _ _ (h n (by omega)).1 (h n (by omega)).2]
    exact ih (fun i hi => h i (by omega))

theorem rolloutBlockAux_value (m : ℕ → ℝ) (l : ℕ) (acc : ℕ → ℝ) (i : ℕ) (hil : i ≤ l) :
    ∀ j, i < j → j ≤ l + 1 →
      ((List.range j).foldl (rolloutStep m l) acc) (l * l + l + i) = m (l * (l + 1) / 2 + i) ∧
      ((List.range j).foldl (rolloutStep m l) acc) (l * l + l - i) = m (l * (l + 1) / 2 + i) := by
  intro j
  induction j with
  | zero => intro h _; exact absurd h (Nat.not_lt_zero i)
  | succ n ih =>
    intro hij hjl
    rw [List.range_succ, List.foldl_append]
    simp only [List.foldl_cons, List.foldl_nil]
    by_cases hin : i = n
    · subst hin
      exact rolloutStep_hit m l _ i
    · have hin' : i < n := by omega
      have hnl : n ≤ l := by omega
      constructor
      · rw [rolloutStep_ne _ _ _ _ _ (by generalize l * l = s; omega)
            (by generalize l * l = s; omega)]
        exact (ih hin' (by omega)).1
      · rw [rolloutStep_ne _ _ _ _ _ (by generalize l * l = s; omega)
            (by generalize l * l = s; omega)]
        exact (ih hin' (by omega)).2

theorem rolloutBlock_value (m : ℕ → ℝ) (l : ℕ) (acc : ℕ → ℝ) (i : ℕ) (hil : i ≤ l) :
    rolloutBlock m l acc (l * l + l + i) = m (l * (l + 1) / 2 + i) ∧
    rolloutBlock m l acc (l * l + l - i) = m (l * (l + 1) / 2 + i) :=
  rolloutBlockAux_value m l acc i hil (l + 1) (by omega) (by omega)

theorem rolloutBlock_outside (m : ℕ → ℝ) (l : ℕ) (acc : ℕ → ℝ) (q : ℕ)
    (hq : q < l * l ∨ l * l + 2 * l < q) :
    rolloutBlock m l acc q = acc q := by
  refine rolloutBlockAux_untouched m l acc q (l + 1) (fun i hi => ?_)
  constructor <;> (generalize hs : l * l = s at hq ⊢; omega)

theorem rolloutShAux (m : ℕ → ℝ) (l i : ℕ) (hi : i ≤ l) :
    ∀ N, l < N →
      ((List.range N).foldl (fun acc k => rolloutBlock m k acc) (fun _ => 0)) (l * l + l + i)
        = m (l * (l + 1) / 2 + i) ∧
      ((List.range N).foldl (fun acc k => rolloutBlock m k acc) (fun _ => 0)) (l * l + l - i)
        = m (l * (l + 1) / 2 + i) := by
  intro N
  induction N with
  | zero => intro h; exact absurd h (Nat.not_lt_zero l)
  | succ n ih =>
    intro hlN
    rw [List.range_succ, List.foldl_append]
    simp only [List.foldl_cons, List.foldl_nil]
    by_cases hln : l = n
    · subst hln
      exact rolloutBlock_value m l _ i hi
    · have hln' : l < n := by omega
      have hsq : l * l + 2 * l + 1 ≤ n * n := by
        have hmul : (l + 1) * (l + 1) ≤ n * n := Nat.mul_le_mul (by omega) (by omega)
        have hexp : (l + 1) * (l + 1) = l * l + 2 * l + 1 := by ring
        omega
      constructor
      · rw [rolloutBlock_outside m n _ _ (Or.inl (by omega))]
        exact (ih hln').1
      · rw [rolloutBlock_outside m n _ _ (Or.inl (by omega))]
        exact (ih hln').2

/-- C9: the basis reshaper `_rollout_sh` writes the compact triangular entry
`m[l(l+1)/2 + m_idx]` into both the `+m` slot `l^2 + l + m_idx` and the `-m`
slot `l^2 + l - m_idx` of the full `(lmax+1)^2` layout, for every degree
`l <= lmax` and order `0 <= m_idx <= l`. -/
theorem rolloutSh_spec (m : ℕ → ℝ) (lmax l i : ℕ) (hl : l ≤ lmax) (hi : i ≤ l) :
    rolloutSh m lmax (l * l + l + i) = m (l * (l + 1) / 2 + i) ∧
    rolloutSh m lmax (l * l + l - i) = m (l * (l + 1) / 2 + i) :=
  rolloutShAux m l i hi (lmax + 1) (by omega)

/-- Witness for C9 at a concrete input: degree 2, order 1 inside `lmax = 2`. -/
theorem rolloutSh_spec_witness :
    rolloutSh (fun k => (k : ℝ)) 2 (2 * 2 + 2 + 1) = ((2 * (2 + 1) / 2 + 1 : ℕ) : ℝ) ∧
    rolloutSh (fun k => (k : ℝ)) 2 (2 * 2 + 2 - 1) = ((2 * (2 + 1) / 2 + 1 : ℕ) : ℝ) :=
  rolloutSh_spec (fun k => (k : ℝ)) 2 2 1 (by omega) (by omega)


theorem prod_to_sum (p q : ℝ) :
    Real.sin p * Real.sin q = (Real.cos (q - p) - Real.cos (q + p)) / 2 := by
  rw [Real.cos_sub_cos]
  rw [show (q - p + (q + p)) / 2 = q by ring]
  rw [show (q - p - (q + p)) / 2 = -p by ring]
  rw [Real.sin_neg]
  ring

theorem cos_sum_zero (b m : ℕ) (hm : 0 < m) (hmb : m < b) :
    ∑ j in Finset.range b, Real.cos ((2 * (j : ℝ) + 1) * ((m : ℝ) * π / b)) = 0 := by
  have hb : 0 < b := lt_trans hm hmb
  have hb0 : (b : ℝ) ≠ 0 := Nat.cast_ne_zero.mpr (by omega)
  set c : ℝ := (m : ℝ) * π / b with hc
  have hc0 : 0 < c := by
    apply div_pos (mul_pos (by exact_mod_cast hm) Real.pi_pos)
    exact_mod_cast hb
  have hcpi : c < π := by
    rw [hc, div_lt_iff₀ (by exact_mod_cast hb : (0:ℝ) < b)]
    have hmb' : (m : ℝ) < b := by exact_mod_cast hmb
    nlinarith [Real.pi_pos]
  have hsin : Real.sin c ≠ 0 := ne_of_gt (Real.sin_pos_of_pos_of_lt_pi hc0 hcpi)
  have hterm : ∀ j : ℕ,
      Real.sin ((2 * ((j : ℝ) + 1)) * c) - Real.sin ((2 * (j : ℝ)) * c)
        = 2 * Real.sin c * Real.cos ((2 * (j : ℝ) + 1) * c) := by
    intro j
    rw [Real.sin_sub_sin]
    rw [show (2 * ((j:ℝ) + 1) * c + 2 * (j:ℝ) * c) / 2 = (2 * (j:ℝ) + 1) * c by ring]
    rw [show (2 * ((j:ℝ) + 1) * c - 2 * (j:ℝ) * c) / 2 = c by ring]
  have htel : ∑ j in Finset.range b,
      (Real.sin ((2 * ((j : ℝ) + 1)) * c) - Real.sin ((2 * (j : ℝ)) * c))
        = Real.sin ((2 * (b : ℝ)) * c) - Real.sin ((2 * ((0:ℕ) : ℝ)) * c) := by
    have h := Finset.sum_range_sub (fun j : ℕ => Real.sin ((2 * (j : ℝ)) * c)) b
    simpa [Nat.cast_add, Nat.cast_one] using h
  have hend : Real.sin ((2 * (b : ℝ)) * c) = 0 := by
    rw [show (2 * (b : ℝ)) * c = ((2 * m : ℕ) : ℝ) * π by
      rw [hc]; push_cast; field_simp; ring]
    exact Real.sin_nat_mul_pi (2 * m)
  have hsum : 2 * Real.sin c * ∑ j in Finset.range b, Real.cos ((2 * (j : ℝ) + 1) * c) = 0 := by
    rw [Finset.mul_sum]
    rw [show ∑ j in Finset.range b, 2 * Real.sin c * Real.cos ((2 * (j : ℝ) + 1) * c)
        = ∑ j in Finset.range b,
            (Real.sin ((2 * ((j : ℝ) + 1)) * c) - Real.sin ((2 * (j : ℝ)) * c)) from
      Finset.sum_congr rfl (fun j _ => (hterm j).symm)]
    rw [htel, hend]
    simp
  rcases mul_eq_zero.mp hsum with h | h
  · exact absurd (mul_eq_zero.mp h) (by push_neg; exact ⟨two_ne_zero, hsin⟩)
  · exact h

theorem softQwSum_eq_one (b : ℕ) (hb2 : 2 ≤ b) (hbe : b % 2 = 0) :
    ∑ j in Finset.range b, s2gridQwSoft b j = 1 := by
  have hb0 : (b : ℝ) ≠ 0 := Nat.cast_ne_zero.mpr (by omega)
  have hterm : ∀ j : ℕ, s2gridQwSoft b j
      = ∑ k in Finset.range (b / 2), (1 / (b : ℝ)) * ((1 / (2 * (k : ℝ) + 1)) *
          (Real.cos ((2 * (j : ℝ) + 1) * ((k : ℝ) * π / b))
            - Real.cos ((2 * (j : ℝ) + 1) * (((k : ℝ) + 1) * π / b)))) := by
    intro j
    unfold s2gridQwSoft quadratureWeightsSoft
    rw [Finset.mul_sum, Finset.sum_div]
    apply Finset.sum_congr rfl
    intro k _
    have hps := prod_to_sum (π * (2 * (j : ℝ) + 1) / (2 * b))
      ((2 * (j : ℝ) + 1) * (2 * (k : ℝ) + 1) * π / (2 * b))
    rw [show (2 * (j : ℝ) + 1) * ((k : ℝ) * π / b)
        = (2 * (j : ℝ) + 1) * (2 * (k : ℝ) + 1) * π / (2 * b)
          - π * (2 * (j : ℝ) + 1) / (2 * b) by field_simp; ring]
    rw [show (2 * (j : ℝ) + 1) * (((k : ℝ) + 1) * π / b)
        = (2 * (j : ℝ) + 1) * (2 * (k : ℝ) + 1) * π / (2 * b)
          + π * (2 * (j : ℝ) + 1) / (2 * b) by field_simp; ring]
    linear_combination ((2 : ℝ) / b * (1 / (2 * (k : ℝ) + 1))) * hps
  rw [Finset.sum_congr rfl (fun j _ => hterm j), Finset.sum_comm]
  have hS0 : ∑ j in Finset.range b, Real.cos ((2 * (j : ℝ) + 1) * (((0:ℕ) : ℝ) * π / b))
      = b := by
    simp
  obtain ⟨n, hn⟩ : ∃ n, b / 2 = n + 1 := ⟨b / 2 - 1, by omega⟩
  rw [hn, Finset.sum_range_succ']
  have hzero : ∀ k ∈ Finset.range n,
      ∑ j in Finset.range b, (1 / (b : ℝ)) * ((1 / (2 * ((k + 1 : ℕ) : ℝ) + 1)) *
          (Real.cos ((2 * (j : ℝ) + 1) * (((k + 1 : ℕ) : ℝ) * π / b))
            - Real.cos ((2 * (j : ℝ) + 1) * ((((k + 1 : ℕ) : ℝ) + 1) * π / b)))) = 0 := by
    intro k hk
    rw [Finset.mem_range] at hk
    have h1 : ∑ j in Finset.range b,
        Real.cos ((2 * (j : ℝ) + 1) * (((k + 1 : ℕ) : ℝ) * π / b)) = 0 :=
      cos_sum_zero b (k + 1) (by omega) (by omega)
    have h2 : ∑ j in Finset.range b,
        Real.cos ((2 * (j : ℝ) + 1) * ((((k + 1 : ℕ) : ℝ) + 1) * π / b)) = 0 := by
      have h := cos_sum_zero b (k + 2) (by omega) (by omega)
      rw [show (((k + 1 : ℕ) : ℝ) + 1) = ((k + 2 : ℕ) : ℝ) by push_cast; ring]
      exact h
    rw [← Finset.mul_sum, ← Finset.mul_sum, Finset.sum_sub_distrib, h1, h2]
    simp
  rw [Finset.sum_eq_zero hzero, zero_add]
  have h1 : ∑ j in Finset.range b,
      Real.cos ((2 * (j : ℝ) + 1) * ((((0 : ℕ) : ℝ) + 1) * π / b)) = 0 := by
    have h := cos_sum_zero b 1 (by omega) (by omega)
    rw [show (((0 : ℕ) : ℝ) + 1) = ((1 : ℕ) : ℝ) by push_cast; ring]
    exact h
  have h0 : ∑ j in Finset.range b,
      Real.cos ((2 * (j : ℝ) + 1) * (((0 : ℕ) : ℝ) * π / b)) = (b : ℝ) := by
    simp
  rw [← Finset.mul_sum, ← Finset.mul_sum, Finset.sum_sub_distrib, h0, h1]
  push_cast
  field_simp

/-- C6 (amended): for every even `rows >= 4` with the soft quadrature and
every `rows >= 1` with the (spec-modelled) Gauss-Legendre quadrature, the
quadrature weights returned by `_s2grid` sum to `1` over the colatitude axis
(the raw weights sum to `2` and `_s2grid` halves them; the code documents
`sum(qw) = 1`), with the `y` values lying in `[-1, 1]`.  The claimed sum
`1/2` is refuted by `s2grid_qw_sum_not_half`. -/
theorem s2grid_qw_sum_eq_one (b : ℕ) (hb4 : 4 ≤ b) (hbe : b % 2 = 0)
    (n : ℕ) (hn : 1 ≤ n) (y w : ℕ → ℝ) (hgl : IsGaussLegendreRule n y w) :
    ((∑ j in Finset.range b, s2gridQwSoft b j = 1) ∧
      ∀ j < b, -1 ≤ s2gridYSoft b j ∧ s2gridYSoft b j ≤ 1) ∧
    ((∑ i in Finset.range n, s2gridQwGL w i = 1) ∧
      ∀ i < n, -1 ≤ y i ∧ y i ≤ 1) := by
  refine ⟨⟨softQwSum_eq_one b (by omega) hbe, fun j _ => ?_⟩, ?_, hgl.1⟩
  · unfold s2gridYSoft
    constructor
    · exact neg_le_neg (Real.cos_le_one _)
    · simpa using neg_le_neg (Real.neg_one_le_cos _)
  · unfold s2gridQwGL
    rw [← Finset.sum_div, hgl.2]
    norm_num

/-- Witness for C6 at concrete inputs: the soft grid with 4 rows, and the
one-point Gauss-Legendre rule (node 0, weight 2). -/
theorem s2grid_qw_sum_eq_one_witness :
    ((∑ j in Finset.range 4, s2gridQwSoft 4 j = 1) ∧
      ∀ j < 4, -1 ≤ s2gridYSoft 4 j ∧ s2gridYSoft 4 j ≤ 1) ∧
    ((∑ i in Finset.range 1, s2gridQwGL (fun _ => 2) i = 1) ∧
      ∀ i < 1, -1 ≤ (fun _ => (0 : ℝ)) i ∧ (fun _ => (0 : ℝ)) i ≤ 1) :=
  s2grid_qw_sum_eq_one 4 (by omega) (by omega) 1 (by omega) (fun _ => 0) (fun _ => 2)
    ⟨fun i _ => ⟨by norm_num, by norm_num⟩, by simp⟩

/-- Counterexample for C6 as stated: at soft quadrature with 4 rows (inside
the claimed domain of even rows at least 4) the weights returned by `_s2grid`
do not sum to `1/2`. -/
theorem s2grid_qw_sum_not_half :
    ¬ (∑ j in Finset.range 4, s2gridQwSoft 4 j = 1 / 2) := by
  rw [softQwSum_eq_one 4 (by omega) (by omega)]
  norm_num


theorem rfftL_length (g : List ℝ) (l : ℕ) : (rfftL g l).length = 2 * l + 1 := by
  unfold rfftL
  simp
  omega

theorem rfftL_getD_lt (g : List ℝ) (l j : ℕ) (hj : j < l) :
    (rfftL g l).getD j 0 =
      -Real.sqrt 2 * dftIm g.length (fun a => g.getD a 0) (l - j) := by
  unfold rfftL
  rw [List.getD_append _ _ _ _ (by simp; omega)]
  rw [List.getD_append _ _ _ _ (by simp [hj])]
  rw [List.getD_eq_getElem?_getD, List.getElem?_map,
    List.getElem?_reverse (by simp [hj]), List.getElem?_map]
  simp only [List.length_map, List.length_range]
  rw [List.getElem?_range (by omega)]
  simp only [Option.map_some']
  rw [show l - 1 - j + 1 = l - j by omega]
  rfl

theorem rfftL_getD_mid (g : List ℝ) (l : ℕ) :
    (rfftL g l).getD l 0 = dftRe g.length (fun a => g.getD a 0) 0 := by
  unfold rfftL
  rw [List.getD_append _ _ _ _ (by simp)]
  rw [List.getD_append_right _ _ _ _ (by simp)]
  simp

theorem rfftL_getD_gt (g : List ℝ) (l k : ℕ) (h1 : 1 ≤ k) (h2 : k ≤ l) :
    (rfftL g l).getD (l + k) 0 =
      Real.sqrt 2 * dftRe g.length (fun a => g.getD a 0) k := by
  unfold rfftL
  rw [List.getD_append_right _ _ _ _ (by simp; omega)]
  simp only [List.length_append, List.length_map, List.length_reverse, List.length_range,
    List.length_cons, List.length_nil]
  rw [show l + k - (l + (0 + 1)) = k - 1 by omega]
  rw [List.getD_eq_getElem?_getD, List.getElem?_map, List.getElem?_range (by omega)]
  simp only [Option.map_some']
  rw [show k - 1 + 1 = k by omega]
  rfl

theorem forward_agree (l M : ℕ) (g : List ℝ) (hg : g.length = M) (j : ℕ)
    (hj : j < 2 * l + 1) :
    (rfftL g l).getD j 0 =
      ∑ a in Finset.range M, g.getD a 0 * shAlpha l j (gridAlpha M a) := by
  rcases lt_trichotomy j l with hjl | hjl | hjl
  · rw [rfftL_getD_lt g l j hjl, hg]
    unfold dftIm
    rw [neg_mul_neg, Finset.mul_sum]
    apply Finset.sum_congr rfl
    intro a _
    simp only [shAlpha, if_pos hjl, gridAlpha]
    rw [show 2 * π * ((l - j : ℕ) : ℝ) * a / M = ((l - j : ℕ) : ℝ) * ((a : ℝ) / M * (2 * π)) by
      ring]
    ring
  · subst hjl
    rw [rfftL_getD_mid g j, hg]
    unfold dftRe
    apply Finset.sum_congr rfl
    intro a _
    simp only [shAlpha, lt_irrefl, if_neg, if_pos, Nat.cast_zero]
    norm_num
  · have hk : j = l + (j - l) := by omega
    rw [hk, rfftL_getD_gt g l (j - l) (by omega) (by omega), hg]
    unfold dftRe
    rw [Finset.mul_sum]
    apply Finset.sum_congr rfl
    intro a _
    have h1 : ¬ (l + (j - l) < l) := by omega
    have h2 : ¬ (l + (j - l) = l) := by omega
    simp only [shAlpha, if_neg h1, if_neg h2, gridAlpha]
    rw [show l + (j - l) - l = j - l by omega]
    rw [show 2 * π * ((j - l : ℕ) : ℝ) * a / M = ((j - l : ℕ) : ℝ) * ((a : ℝ) / M * (2 * π)) by
      ring]
    ring

theorem two_mul_div_sqrt_two (u : ℝ) : 2 * (u / Real.sqrt 2) = Real.sqrt 2 * u := by
  have h2 : Real.sqrt 2 * Real.sqrt 2 = 2 := Real.mul_self_sqrt (by norm_num)
  have hne : Real.sqrt 2 ≠ 0 := by positivity
  field_simp
  linear_combination (-u) * h2

theorem inverse_agree (l M : ℕ) (hModd : M % 2 = 1) (hM : 2 * l + 1 ≤ M)
    (x : List ℝ) (hx : x.length = 2 * l + 1) (n : ℕ) :
    (M : ℝ) * irfftCode x M n =
      ∑ j in Finset.range (2 * l + 1), x.getD j 0 * shAlpha l j (gridAlpha M n) := by
  have hM0 : (M : ℝ) ≠ 0 := Nat.cast_ne_zero.mpr (by omega)
  have hl2 : (x.length - 1) / 2 = l := by omega
  have hlM : l ≤ M / 2 := by omega
  unfold irfftCode irfftSem
  rw [← mul_assoc, mul_one_div_cancel hM0, one_mul]
  -- rewrite the Ioc sum as a range sum over shifted indices
  rw [show Finset.Ioc 0 (M / 2) = Finset.Ico 1 (M / 2 + 1) by
    rw [Nat.Ico_succ_right, ← Nat.Icc_succ_left]]
  rw [Finset.sum_Ico_eq_sum_range]
  simp only [Nat.add_sub_cancel]
  -- split at l and kill the zero bins above l
  rw [← Finset.sum_range_add_sum_Ico _ hlM]
  have hupper : ∑ k in Finset.Ico l (M / 2),
      (irfftBinRe x (1 + k) * Real.cos (2 * π * ((1 + k : ℕ) : ℝ) * n / M)
        - irfftBinIm x (1 + k) * Real.sin (2 * π * ((1 + k : ℕ) : ℝ) * n / M)) = 0 := by
    apply Finset.sum_eq_zero
    intro i hi
    rw [Finset.mem_Ico] at hi
    simp only [irfftBinRe, irfftBinIm, hl2]
    rw [if_neg (by omega), if_neg (by omega), if_neg (by
      rintro ⟨h1a, h2a⟩
      omega)]
    ring
  rw [hupper, add_zero]
  -- reduce the bins on the surviving range
  rw [show (irfftBinRe x 0) = x.getD l 0 by simp [irfftBinRe, hl2]]
  have hbr : ∀ i ∈ Finset.range l,
      irfftBinRe x (1 + i) * Real.cos (2 * π * (1 + i : ℕ) * n / M)
        - irfftBinIm x (1 + i) * Real.sin (2 * π * (1 + i : ℕ) * n / M)
      = x.getD (l + (1 + i)) 0 / Real.sqrt 2 * Real.cos (2 * π * (1 + i : ℕ) * n / M)
        + x.getD (l - (1 + i)) 0 / Real.sqrt 2 * Real.sin (2 * π * (1 + i : ℕ) * n / M) := by
    intro i hi
    rw [Finset.mem_range] at hi
    simp only [irfftBinRe, irfftBinIm, hl2]
    rw [if_neg (by omega), if_pos (by omega), if_pos (by constructor <;> omega)]
    ring
  rw [Finset.sum_congr rfl hbr]
  -- now handle the right-hand side
  rw [show (2 * l + 1) = (l + 1) + l by ring]
  rw [Finset.sum_range_add]
  rw [Finset.sum_range_succ]
  rw [show shAlpha l l (gridAlpha M n) = 1 by simp [shAlpha]]
  -- sine block reflected
  rw [show ∑ j in Finset.range l, x.getD j 0 * shAlpha l j (gridAlpha M n)
      = ∑ j in Finset.range l,
          x.getD (l - 1 - j) 0 * (Real.sqrt 2 *
            Real.sin (((j + 1 : ℕ) : ℝ) * gridAlpha M n)) from by
    rw [← Finset.sum_range_reflect]
    apply Finset.sum_congr rfl
    intro j hj
    rw [Finset.mem_range] at hj
    simp only [shAlpha]
    rw [if_pos (by omega)]
    rw [show l - (l - 1 - j) = j + 1 by omega]]
  -- cosine block shifted
  rw [show ∑ j in Finset.range l, x.getD ((l + 1) + j) 0 * shAlpha l ((l + 1) + j) (gridAlpha M n)
      = ∑ j in Finset.range l,
          x.getD (l + (1 + j)) 0 * (Real.sqrt 2 *
            Real.cos (((j + 1 : ℕ) : ℝ) * gridAlpha M n)) from by
    apply Finset.sum_congr rfl
    intro j hj
    rw [Finset.mem_range] at hj
    simp only [shAlpha]
    rw [if_neg (by omega), if_neg (by omega)]
    rw [show (l + 1) + j - l = j + 1 by omega]
    rw [show (l + 1) + j = l + (1 + j) by omega]]
  -- merge everything termwise
  rw [Finset.mul_sum]
  rw [show ∑ i in Finset.range l,
        2 * (x.getD (l + (1 + i)) 0 / Real.sqrt 2 * Real.cos (2 * π * (1 + i : ℕ) * n / M)
          + x.getD (l - (1 + i)) 0 / Real.sqrt 2 * Real.sin (2 * π * (1 + i : ℕ) * n / M))
      = ∑ i in Finset.range l,
          (x.getD (l - 1 - i) 0 * (Real.sqrt 2 * Real.sin (((i + 1 : ℕ) : ℝ) * gridAlpha M n))
            + x.getD (l + (1 + i)) 0 * (Real.sqrt 2 *
                Real.cos (((i + 1 : ℕ) : ℝ) * gridAlpha M n))) from by
    apply Finset.sum_congr rfl
    intro i hi
    rw [Finset.mem_range] at hi
    rw [show l - (1 + i) = l - 1 - i by omega]
    have hc : Real.cos (2 * π * ((1 + i : ℕ) : ℝ) * n / M)
        = Real.cos (((i + 1 : ℕ) : ℝ) * gridAlpha M n) := by
      unfold gridAlpha
      push_cast
      ring_nf
    have hs : Real.sin (2 * π * ((1 + i : ℕ) : ℝ) * n / M)
        = Real.sin (((i + 1 : ℕ) : ℝ) * gridAlpha M n) := by
      unfold gridAlpha
      push_cast
      ring_nf
    rw [hc, hs]
    have e1 := two_mul_div_sqrt_two (x.getD (l + (1 + i)) 0)
    have e2 := two_mul_div_sqrt_two (x.getD (l - 1 - i) 0)
    linear_combination Real.cos (((i + 1 : ℕ) : ℝ) * gridAlpha M n) * e1
      + Real.sin (((i + 1 : ℕ) : ℝ) * gridAlpha M n) * e2]
  rw [Finset.sum_add_distrib]
  ring

/-- C2: for a valid input (odd longitude resolution `M` in `[3, 21]`,
`l` in `[0, 10]`, and the sampling requirement `M >= 2l + 1`), the fast and
naive longitude paths agree exactly: the forward path of `from_s2grid`
(`_rfft(values, l) / res_alpha` versus the contraction against the Fourier
basis divided by `res_alpha`) and the inverse path of `to_s2grid`
(`_irfft(coeffs, res_alpha) * res_alpha` versus the contraction against the
Fourier basis). -/
theorem fourier_fast_naive_agree (l M : ℕ) (hl : l ≤ 10) (hM3 : 3 ≤ M) (hM21 : M ≤ 21)
    (hModd : M % 2 = 1) (hsamp : 2 * l + 1 ≤ M) :
    (∀ g : List ℝ, g.length = M → ∀ j < 2 * l + 1,
        (rfftL g l).getD j 0 / M
          = (∑ a in Finset.range M, g.getD a 0 * shAlpha l j (gridAlpha M a)) / M) ∧
    (∀ x : List ℝ, x.length = 2 * l + 1 → ∀ n < M,
        irfftCode x M n * (M : ℝ)
          = ∑ j in Finset.range (2 * l + 1), x.getD j 0 * shAlpha l j (gridAlpha M n)) := by
  constructor
  · intro g hg j hj
    rw [forward_agree l M g hg j hj]
  · intro x hx n _
    rw [mul_comm]
    exact inverse_agree l M hModd hsamp x hx n

/-- Witness for C2 at concrete inputs: `l = 1`, resolution `M = 3`, one row
of grid samples and one row of Fourier coefficients. -/
theorem fourier_fast_naive_agree_witness :
    ((rfftL [1, 2, 3] 1).getD 0 0 / 3
        = (∑ a in Finset.range 3, [(1 : ℝ), 2, 3].getD a 0 * shAlpha 1 0 (gridAlpha 3 a)) / 3) ∧
    (irfftCode [4, 5, 6] 3 0 * (3 : ℝ)
        = ∑ j in Finset.range 3, [(4 : ℝ), 5, 6].getD j 0 * shAlpha 1 j (gridAlpha 3 0)) := by
  constructor
  · exact (fourier_fast_naive_agree 1 3 (by norm_num) (by norm_num) (by norm_num)
      (by norm_num) (by norm_num)).1 [1, 2, 3] rfl 0 (by norm_num)
  · exact (fourier_fast_naive_agree 1 3 (by norm_num) (by norm_num) (by norm_num)
      (by norm_num) (by norm_num)).2 [4, 5, 6] rfl 0 (by norm_num)

/-- C5: on a row of `M >= 2l + 1` real samples, `_rfft(x, l)` returns exactly
`2l + 1` values ordered `sine(l) .. sine(1), constant, cosine(1) .. cosine(l)`:
the entry at index `l - k` (for `k = 1 .. l`) is `-sqrt 2` times the imaginary
part of bin `k` of the length-`M` real-input FFT (the sine block is the
reversed imaginary slice), the entry at index `l` is the real part of bin `0`,
and the entry at index `l + k` is `sqrt 2` times the real part of bin `k`,
with the bins written out as their defining Fourier sums. -/
theorem rfft_layout (g : List ℝ) (l M : ℕ) (hg : g.length = M) (hM : 2 * l + 1 ≤ M) :
    (rfftL g l).length = 2 * l + 1 ∧
    (∀ k, 1 ≤ k → k ≤ l →
      (rfftL g l).getD (l - k) 0
        = -Real.sqrt 2 *
            (-∑ a in Finset.range M, g.getD a 0 * Real.sin (2 * π * k * a / M))) ∧
    ((rfftL g l).getD l 0 = ∑ a in Finset.range M, g.getD a 0 * Real.cos (2 * π * 0 * a / M)) ∧
    (∀ k, 1 ≤ k → k ≤ l →
      (rfftL g l).getD (l + k) 0
        = Real.sqrt 2 * ∑ a in Finset.range M, g.getD a 0 * Real.cos (2 * π * k * a / M)) := by
  subst hg
  refine ⟨rfftL_length g l, fun k h1 h2 => ?_, ?_, fun k h1 h2 => ?_⟩
  · rw [rfftL_getD_lt g l (l - k) (by omega), show l - (l - k) = k by omega]
    rfl
  · rw [rfftL_getD_mid g l]
    unfold dftRe
    norm_num
  · rw [rfftL_getD_gt g l k h1 h2]
    rfl

/-- Witness for C5 at a concrete input: `l = 1`, samples `[1, 2, 3]`, the
cosine entry at index `l + 1`. -/
theorem rfft_layout_witness :
    (rfftL [1, 2, 3] 1).getD 2 0
      = Real.sqrt 2 * ∑ a in Finset.range 3, [(1 : ℝ), 2, 3].getD a 0 *
          Real.cos (2 * π * 1 * a / 3) := by
  have h := (rfft_layout [1, 2, 3] 1 3 rfl (by norm_num)).2.2.2 1 (by norm_num) (by norm_num)
  norm_num at h
  convert h using 4
  · norm_num
  · norm_num
